import Mathlib

/-!
Shallow embedding of `src/packages/llm/local_llm/chat.py` (the `ChatHistory`
multimodal prompt-assembly engine) and proofs about its behaviour.

Modelling conventions:
* Embedding tensors of shape `[1, n, h]` are modelled as `List τ` of length `n`
  over an abstract token type `τ`; `np.concatenate(_, axis=1)` is list append /
  join, and `.shape[1]` is `List.length`.
* The external model collaborator (`model.embed_text`, `model.embed_image`) is
  an abstract `Model τ`.  The `use_cache` flag of `model.embed_text` selects the
  internal token-embedding cache of the model and does not change the
  returned embedding, so it is not part of the abstract interface.
* A chat entry is a Python dict with a `role` key, content keys and, once
  computed, `<key>_embedding` cache keys.  It is modelled as a record with the
  role, the content association list (in dict insertion order, `None` values
  representable) and the cache association list.  Dict writes of fresh keys are
  appends; dict lookup is first occurrence.  Caller kwargs whose name itself
  ends in `_embedding` are not modelled.
* Exceptions (`RuntimeError`, `ValueError`, `AttributeError`, `NameError`) are
  modelled with `Except ChatError`.  Because `embed_chat` mutates entries in
  place, it returns the updated history alongside the `Except` result, so the
  post-state of a failing call is observable.
* Dict-valued content (`embed_dict`) is not representable in `Value` (no claim
  concerns it); dispatching the registered `dict` type, or `text` on a
  non-string payload, is modelled as an opaque collaborator failure.
-/

deriving instance DecidableEq for Except

/-- Raw content payload stored on a chat entry: a Python string, or an opaque
non-string object (image handle or similar), which the text path cannot
consume but `model.embed_image` accepts (image paths are plain strings, so
images may be either constructor). -/
inductive Value where
  | str : String → Value
  | handle : Nat → Value
deriving DecidableEq

/-- The external model collaborator: raw text-token embedding and visual
feature extraction, both returning a tensor `[1, n, h]` modelled as `List τ`. -/
structure Model (τ : Type) where
  embed_text : String → List τ
  embed_image : Value → List τ

/-- The template placeholder literal used throughout chat.py. -/
def placeholderMark : List Char := "${MESSAGE}".toList

/-- Split a character list at the first occurrence of `placeholderMark`,
returning the part strictly before it and the part strictly after it, or
`none` when the mark does not occur. -/
def breakAtMark : List Char → Option (List Char × List Char)
  | [] => none
  | c :: rest =>
    if placeholderMark.isPrefixOf (c :: rest) then
      some ([], (c :: rest).drop placeholderMark.length)
    else
      match breakAtMark rest with
      | some (pre, post) => some (c :: pre, post)
      | none => none

/-- Modelled from the spec: `utils.replace_text` is imported by chat.py but
`utils.py` is not under src.  Spec section 4.2: the text path substitutes the
message body into the template placeholder verbatim, with no escaping; per
spec section 3 every role template contains exactly one placeholder, so a
single first-occurrence substitution is performed. -/
def replace_text (template msg : String) : String :=
  match breakAtMark template.toList with
  | some (pre, post) => String.mk (pre ++ msg.toList ++ post)
  | none => template

/-- Python `template.split("${MESSAGE}")[0]`: the part strictly before the
first placeholder, or the whole string when the placeholder does not occur. -/
def textBeforeMark (t : String) : String :=
  match breakAtMark t.toList with
  | some (pre, _) => String.mk pre
  | none => t

/-- Python slicing of the role template from `find` of the placeholder onward
(chat.py line 279); `find` returns `-1` when the placeholder is absent, in
which case the Python slice keeps only the last character. -/
def truncToMessage (t : String) : String :=
  match breakAtMark t.toList with
  | some (_, post) => String.mk (placeholderMark ++ post)
  | none => String.mk (t.toList.drop (t.toList.length - 1))

/-- Modelled from the spec: `utils.ImageExtensions` is imported by chat.py but
`utils.py` is not under src.  Spec section 4.2: a known image-file-extension
set; a representative concrete set of common image suffixes. -/
def ImageExtensions : List String := [".jpg", ".jpeg", ".png", ".bmp", ".gif", ".webp"]

/-- The Python exceptions the embedded code can raise. -/
inductive ChatError where
  /-- `ValueError` from `np.concatenate([])`: need at least one array. -/
  | emptyConcat : ChatError
  /-- `AttributeError`: the raise on chat.py line 276 interpolates
  `self.template_name`, an attribute never assigned anywhere in the class, so
  building the message itself fails before the intended `RuntimeError`. -/
  | attributeTemplateName : ChatError
  /-- `NameError`: chat.py line 324 evaluates `isinstance(input, PIL.Image.Image)`
  but `PIL` is never imported in chat.py. -/
  | namePIL : ChatError
  /-- `ValueError` raised by `ChatHistory.embed` for an unregistered type. -/
  | unregisteredType : String → ChatError
  /-- Opaque failure inside an external collaborator call. -/
  | collaborator : String → ChatError
deriving DecidableEq

/-- The content types registered by the `ChatHistory` constructor, in
registration order (`text`, `dict`, `image`); all three registered functions
take a template parameter, so `uses_template` is `true` for each. -/
def embedding_functions : List String := ["text", "dict", "image"]

/-- `ChatHistory.embed_text`: apply the role template (if the template is
truthy, i.e. neither `None` nor the empty string) by substituting the message,
then call the model text embedding. -/
def ChatHistory.embed_text {τ : Type} (M : Model τ) (text : String) (template : Option String) : List τ :=
  match template with
  | some t => if t = "" then M.embed_text text else M.embed_text (replace_text t text)
  | none => M.embed_text text

/-- `ChatHistory.embed_image`: when a truthy template is supplied, first embed
the part of the template before the placeholder as text; then the extracted
visual embedding; then a trailing newline as text; concatenate along the
sequence axis. -/
def ChatHistory.embed_image {τ : Type} (M : Model τ) (image : Value) (template : Option String) : List τ :=
  let embeddings : List (List τ) :=
    match template with
    | some t =>
      if t = "" then [M.embed_image image]
      else [ChatHistory.embed_text M (textBeforeMark t) none, M.embed_image image]
    | none => [M.embed_image image]
  (embeddings ++ [ChatHistory.embed_text M "\n" none]).flatten

/-- `ChatHistory.embed`: dispatch on the registered content type, always
passing the template since every registered function is template-aware.
Dispatching `text` on a non-string payload or `dict` on any payload hands a
value outside the collaborator interface, modelled as an opaque failure. -/
def ChatHistory.embed {τ : Type} (M : Model τ) (input : Value) (type : String) (template : Option String) :
    Except ChatError (List τ) :=
  if embedding_functions.contains type = false then .error (.unregisteredType type)
  else if type = "text" then
    match input with
    | .str s => .ok (ChatHistory.embed_text M s template)
    | .handle _ => .error (.collaborator "embed_text on non-string payload")
  else if type = "image" then .ok (ChatHistory.embed_image M input template)
  else .error (.collaborator "embed_dict payload not modelled")

/-- Inputs given to `ChatHistory.embedding_type`: strings, lists of strings,
PIL images, and anything else. -/
inductive EmbedInput where
  | str : String → EmbedInput
  | strList : List String → EmbedInput
  | pil : Nat → EmbedInput
  | other : Nat → EmbedInput
deriving DecidableEq

/-- `ChatHistory.embedding_type` (chat.py lines 318-329): strings resolve by
image-file extension; every non-string input evaluates
`isinstance(input, PIL.Image.Image)` on line 324, and since `PIL` is never
imported in chat.py this raises `NameError`, making the list-of-strings branch
and the final `ValueError` unreachable. -/
def ChatHistory.embedding_type : EmbedInput → Except ChatError String
  | .str s =>
    if ImageExtensions.any (fun ext => ext.toList.isSuffixOf s.toList) then .ok "image"
    else .ok "text"
  | _ => .error .namePIL

/-- A chat entry: the `role` tag, the content association list (dict insertion
order, values possibly `None`), and the per-type embedding cache
(the `<key>_embedding` dict slots). -/
structure Entry (τ : Type) where
  role : String
  content : List (String × Option Value)
  cache : List (String × List τ)
deriving DecidableEq

/-- First-occurrence association-list lookup (Python dict lookup). -/
def alookup {α : Type _} (l : List (String × α)) (k : String) : Option α :=
  (l.find? (fun p => p.1 == k)).map (fun p => p.2)

/-- Python dict assignment: overwrite in place when the key exists, append
otherwise. -/
def setKey (l : List (String × String)) (k v : String) : List (String × String) :=
  if (l.find? (fun p => p.1 == k)).isSome then
    l.map (fun p => if p.1 == k then (k, v) else p)
  else l ++ [(k, v)]

/-- The chat history state: the active template dict (role templates plus the
`system_prompt` key, as one flat string-to-string dict) and the ordered entry
sequence.  The external `kv_cache` handle is opaque and not modelled. -/
structure ChatHistory (τ : Type) where
  template : List (String × String)
  entries : List (Entry τ)
deriving DecidableEq

/-- `ChatHistory.create_entry`: build an entry from the role, kwargs and the
optional `input`, whose content key is resolved by `embedding_type`; only
string inputs survive type resolution (non-strings raise `NameError`). -/
def ChatHistory.create_entry {τ : Type} (role : String) (input : Option EmbedInput)
    (kwargs : List (String × Option Value)) : Except ChatError (Entry τ) :=
  match input with
  | none => .ok { role := role, content := kwargs, cache := [] }
  | some (.str s) =>
    .ok { role := role,
          content := kwargs ++
            [(if ImageExtensions.any (fun ext => ext.toList.isSuffixOf s.toList) then "image" else "text",
              some (.str s))],
          cache := [] }
  | some _ => .error .namePIL

/-- `ChatHistory.add_entry`: create an entry and append it to the history. -/
def ChatHistory.add_entry {τ : Type} (c : ChatHistory τ) (role : String) (input : Option EmbedInput)
    (kwargs : List (String × Option Value)) : Except ChatError (ChatHistory τ) :=
  (ChatHistory.create_entry role input kwargs).map
    (fun e => { c with entries := c.entries ++ [e] })

/-- `ChatHistory.reset`: clear the entries (and the external kv cache handle,
not modelled) and optionally re-add a `system` entry carrying the current
system prompt as its `text` kwarg. -/
def ChatHistory.reset {τ : Type} (c : ChatHistory τ) (add_system_prompt : Bool) : ChatHistory τ :=
  if add_system_prompt then
    { c with entries :=
        [{ role := "system",
           content := [("text", some (.str ((alookup c.template "system_prompt").getD "")))],
           cache := [] }] }
  else { c with entries := [] }

/-- The `system_prompt` property setter: store the new instruction in the
template dict, then perform a full reset (which re-adds the system entry). -/
def ChatHistory.set_system_prompt {τ : Type} (c : ChatHistory τ) (instruction : String) : ChatHistory τ :=
  ChatHistory.reset { c with template := setKey c.template "system_prompt" instruction } true

/-- The loop state of one `embed_chat` pass: the emitted embeddings, the cache
position, the user-turn counter, the open-user-prompt flag and the (locally
reassigned) `use_cache` flag. -/
structure AssembleState (τ : Type) where
  embeddings : List (List τ)
  position : Nat
  num_user_prompts : Nat
  open_user_prompt : Bool
  use_cache : Bool
deriving DecidableEq

/-- Role-template selection (chat.py lines 272-280): the `first` override when
a `first` template exists, the role is `user` and no user text prompt has been
counted yet; otherwise the template of the declared role (raising when the
role is missing - the raise itself evaluates the never-assigned
`self.template_name`, so an `AttributeError` surfaces), truncated from the
placeholder onward (clearing the flag) when `open_user_prompt` is set.
Returns the chosen template and the updated `open_user_prompt` flag. -/
def chooseTemplate (template : List (String × String)) (role : String)
    (num_user_prompts : Nat) (open_user_prompt : Bool) :
    Except ChatError (String × Bool) :=
  if (alookup template "first").isSome ∧ role = "user" ∧ num_user_prompts = 0 then
    .ok ((alookup template "first").getD "", open_user_prompt)
  else
    match alookup template role with
    | none => .error .attributeTemplateName
    | some role_template =>
      if open_user_prompt then .ok (truncToMessage role_template, false)
      else .ok (role_template, open_user_prompt)

/-- The caching block of `embed_chat` (chat.py lines 287-304) for one content
item, after the role template has been chosen: with `use_cache` still set, a
cache hit only advances the position, a miss computes and stores the
embedding, emitting it (and dropping `use_cache`, opening a user prompt on an
image) for non-bot roles but only counting its length for bot roles; with
`use_cache` unset, the (possibly freshly computed and stored) embedding is
always emitted. -/
def cacheStep {τ : Type} (M : Model τ) (st : AssembleState τ) (entry : Entry τ)
    (key : String) (v : Value) (role_template : String) (oup : Bool) :
    Except ChatError (AssembleState τ × Entry τ) :=
  if st.use_cache then
    match alookup entry.cache key with
    | some emb =>
      .ok ({ st with position := st.position + emb.length, open_user_prompt := oup }, entry)
    | none =>
      match ChatHistory.embed M v key (some role_template) with
      | .error e => .error e
      | .ok emb =>
        if entry.role ≠ "bot" then
          .ok ({ st with
                   embeddings := st.embeddings ++ [emb],
                   use_cache := false,
                   open_user_prompt := if key = "image" then true else oup },
               { entry with cache := entry.cache ++ [(key, emb)] })
        else
          .ok ({ st with position := st.position + emb.length, open_user_prompt := oup },
               { entry with cache := entry.cache ++ [(key, emb)] })
  else
    match alookup entry.cache key with
    | some emb =>
      .ok ({ st with embeddings := st.embeddings ++ [emb], open_user_prompt := oup }, entry)
    | none =>
      match ChatHistory.embed M v key (some role_template) with
      | .error e => .error e
      | .ok emb =>
        .ok ({ st with
                 embeddings := st.embeddings ++ [emb],
                 open_user_prompt := if key = "image" then true else oup },
             { entry with cache := entry.cache ++ [(key, emb)] })

/-- One iteration of the inner loop of `embed_chat` (chat.py lines 268-307):
skip keys that are unregistered or hold `None`; otherwise choose the role
template, run the caching block, and afterwards bump the user-prompt counter
on a user-role `text` key. -/
def processItem {τ : Type} (M : Model τ) (template : List (String × String))
    (st : AssembleState τ) (entry : Entry τ) (item : String × Option Value) :
    Except ChatError (AssembleState τ × Entry τ) :=
  match item with
  | (_, none) => .ok (st, entry)
  | (key, some v) =>
    if embedding_functions.contains key = false then .ok (st, entry)
    else
      match chooseTemplate template entry.role st.num_user_prompts st.open_user_prompt with
      | .error e => .error e
      | .ok (role_template, oup) =>
        match cacheStep M st entry key v role_template oup with
        | .error e => .error e
        | .ok (st2, entry2) =>
          .ok ({ st2 with
                   num_user_prompts := st2.num_user_prompts +
                     (if entry.role = "user" ∧ key = "text" then 1 else 0) },
               entry2)

/-- The inner loop over the keys of one entry (iterating the copy of the dict
taken at loop entry); an exception aborts the loop but the mutations already
performed on the entry persist. -/
def processItems {τ : Type} (M : Model τ) (template : List (String × String)) :
    AssembleState τ → Entry τ → List (String × Option Value) →
    (AssembleState τ × Entry τ) × Option ChatError
  | st, entry, [] => ((st, entry), none)
  | st, entry, item :: rest =>
    match processItem M template st entry item with
    | .error e => ((st, entry), some e)
    | .ok (st2, entry2) => processItems M template st2 entry2 rest

/-- The outer loop of `embed_chat` over the entries; an exception aborts the
pass but all entry mutations already performed persist, and the remaining
entries are untouched. -/
def processEntries {τ : Type} (M : Model τ) (template : List (String × String)) :
    AssembleState τ → List (Entry τ) →
    (AssembleState τ × List (Entry τ)) × Option ChatError
  | st, [] => ((st, []), none)
  | st, entry :: rest =>
    match processItems M template st entry entry.content with
    | ((st2, entry2), some e) => ((st2, entry2 :: rest), some e)
    | ((st2, entry2), none) =>
      match processEntries M template st2 rest with
      | ((st3, rest2), err) => ((st3, entry2 :: rest2), err)

/-- `ChatHistory.embed_chat` (chat.py lines 254-309): run the assembly pass,
then `np.concatenate(embeddings, axis=1)` - which raises `ValueError` on an
empty list - and return the concatenated tensor with the accumulated cache
position.  The updated history is returned alongside the `Except` result since
the Python code mutates the entries in place even on a failing pass. -/
def ChatHistory.embed_chat {τ : Type} (M : Model τ) (use_cache : Bool) (c : ChatHistory τ) :
    ChatHistory τ × Except ChatError (List τ × Nat) :=
  match processEntries M c.template
      { embeddings := [], position := 0, num_user_prompts := 0,
        open_user_prompt := false, use_cache := use_cache } c.entries with
  | ((_, entries2), some e) => ({ c with entries := entries2 }, .error e)
  | ((st, entries2), none) =>
    if st.embeddings.isEmpty then ({ c with entries := entries2 }, .error .emptyConcat)
    else ({ c with entries := entries2 }, .ok (st.embeddings.flatten, st.position))

/-- Whether a content item is actually processed by the assembly pass: its key
has a registered embedding function and its value is not `None`. -/
def embeddableItem (kv : String × Option Value) : Bool :=
  embedding_functions.contains kv.1 && kv.2.isSome

/-- Drop every content item the assembly pass skips. -/
def filterEntry {τ : Type} (e : Entry τ) : Entry τ :=
  { e with content := e.content.filter embeddableItem }

/-- The increment applied to `num_user_prompts` by processing one item. -/
def nupBump (role : String) (item : String × Option Value) : Nat :=
  if embeddableItem item = true ∧ role = "user" ∧ item.1 = "text" then 1 else 0

/-- A concrete token model for witnesses and counterexamples: a text embedding
is the singleton of its string, an image embedding a singleton marker. -/
def Mstr : Model String :=
  { embed_text := fun s => [s], embed_image := fun _ => ["<img>"] }

/-- The `llama-2` template of the source registry (chat.py lines 12-18),
flattened to one dict. -/
def llama2Template : List (String × String) :=
  [("system_prompt", "Answer the questions."),
   ("system", "<s>[INST] <<SYS>>\n${MESSAGE}\n<</SYS>>\n\n"),
   ("first", "${MESSAGE} [/INST]"),
   ("user", "<s>[INST] ${MESSAGE} [/INST]"),
   ("bot", " ${MESSAGE}")]

/-- A small vicuna-style template (the role strings of `vicuna-v1` in the
source registry, chat.py lines 28-33, with a shortened system prompt) used for
concrete witnesses and counterexamples. -/
def vicunaLikeTemplate : List (String × String) :=
  [("system_prompt", "A chat between a human and an assistant."),
   ("system", "${MESSAGE}\n\n"),
   ("user", "USER: ${MESSAGE}\n"),
   ("bot", "ASSISTANT: ${MESSAGE}</s>\n")]

/-- A chat of one fresh user entry under the `llama-2` template, before any
assembly pass. -/
def chatC2cx : ChatHistory String :=
  { template := llama2Template,
    entries := [{ role := "user", content := [("text", some (.str "hello"))], cache := [] }] }

/-- The same chat after one successful cached assembly pass: the user text now
carries its cached embedding (the `first` template was applied). -/
def chatC2cxDone : ChatHistory String :=
  { template := llama2Template,
    entries := [{ role := "user", content := [("text", some (.str "hello"))],
                  cache := [("text", ["hello [/INST]"])] }] }

/-- A chat of one fresh system entry under the vicuna-style template. -/
def chatC2w : ChatHistory String :=
  { template := vicunaLikeTemplate,
    entries := [{ role := "system", content := [("text", some (.str "sp"))], cache := [] }] }

/-- The same chat after one successful cached assembly pass. -/
def chatC2wDone : ChatHistory String :=
  { template := vicunaLikeTemplate,
    entries := [{ role := "system", content := [("text", some (.str "sp"))],
                  cache := [("text", ["sp\n\n"])] }] }

/-- A chat whose first entry is a bot turn with a cached embedding and whose
second entry has a role absent from the template, so assembly fails after the
cache hit. -/
def chatC9w : ChatHistory String :=
  { template := vicunaLikeTemplate,
    entries := [{ role := "bot", content := [("text", some (.str "hi"))], cache := [("text", ["x"])] },
                { role := "alien", content := [("text", some (.str "y"))], cache := [] }] }

/-- A chat whose first entry is a bot turn already holding a cached text
embedding of length 3, followed by a fresh user entry. -/
def chatC1cx : ChatHistory String :=
  { template := vicunaLikeTemplate,
    entries := [{ role := "bot", content := [("text", some (.str "hi"))],
                  cache := [("text", ["x", "y", "z"])] },
                { role := "user", content := [("text", some (.str "q"))], cache := [] }] }

/-- A mid-pass assembly state with still_cacheable set and a nonzero position
and user counter, for exercising the cache-hit step. -/
def stC1w : AssembleState String :=
  { embeddings := [["A"]], position := 5, num_user_prompts := 1,
    open_user_prompt := false, use_cache := true }

/-- A bot entry holding a cached text embedding of length 3. -/
def entC1w : Entry String :=
  { role := "bot", content := [("text", some (.str "hi"))],
    cache := [("text", ["x", "y", "z"])] }

/-- A template defining distinct `first` and `user` role templates. -/
def tplC3 : List (String × String) :=
  [("system_prompt", "sp"), ("system", "S${MESSAGE}"), ("first", "F${MESSAGE}"),
   ("user", "U${MESSAGE}"), ("bot", "B${MESSAGE}")]

/-- A chat whose first (and only) user entry carries an image segment and no
text segment. -/
def chatC3cx : ChatHistory String :=
  { template := tplC3,
    entries := [{ role := "user", content := [("image", some (.handle 0))], cache := [] }] }

/-- A chat containing an entry whose role has no template in the llama-2
template set. -/
def chatC5cx : ChatHistory String :=
  { template := llama2Template,
    entries := [{ role := "critic", content := [("text", some (.str "x"))], cache := [] }] }

/-- The embeddings a full (uncached) pass emits for one entry: the cached
embedding of every embeddable content item, in content order. -/
def emittedOfEntry {τ : Type} (e : Entry τ) : List (List τ) :=
  (e.content.filter embeddableItem).map (fun kv => (alookup e.cache kv.1).getD [])

/-- What a successful full re-emission pass guarantees: position zero, entries
preserved up to append-only cache growth, every embeddable segment cached
afterwards, and the returned tensor the in-order concatenation of every
embeddable segment of every entry. -/
def assemblesFully {τ : Type} (c c' : ChatHistory τ) (t : List τ) (p : Nat) : Prop :=
  p = 0 ∧
  List.Forall₂
    (fun e e' => e'.role = e.role ∧ e'.content = e.content ∧ ∃ d, e'.cache = e.cache ++ d)
    c.entries c'.entries ∧
  (∀ e' ∈ c'.entries, ∀ kv ∈ e'.content, embeddableItem kv = true →
    (alookup e'.cache kv.1).isSome = true) ∧
  t = (c'.entries.map (fun e => (emittedOfEntry e).flatten)).flatten

/-- The empty chat history, as produced by `reset` without a system prompt. -/
def chatC4cx : ChatHistory String :=
  { template := vicunaLikeTemplate, entries := [] }

/-- A history mixing a system entry with an already-cached embedding and a
fresh user entry that also carries an unregistered kwarg. -/
def chatC4w : ChatHistory String :=
  { template := vicunaLikeTemplate,
    entries := [{ role := "system", content := [("text", some (.str "sp"))],
                  cache := [("text", ["S"])] },
                { role := "user",
                  content := [("mood", some (.str "m")), ("text", some (.str "q"))],
                  cache := [] }] }

/-- The same history after one full uncached pass. -/
def chatC4wDone : ChatHistory String :=
  { template := vicunaLikeTemplate,
    entries := [{ role := "system", content := [("text", some (.str "sp"))],
                  cache := [("text", ["S"])] },
                { role := "user",
                  content := [("mood", some (.str "m")), ("text", some (.str "q"))],
                  cache := [("text", ["USER: q\n"])] }] }

/-- A llama-2 chat with an existing user entry carrying a cached embedding,
about to have its system prompt replaced. -/
def chatC8w : ChatHistory String :=
  { template := llama2Template,
    entries := [{ role := "user", content := [("text", some (.str "old"))],
                  cache := [("text", ["cached"])] }] }

/-! ### Association-list lemmas (Python dict lookup / assignment) -/

theorem alookup_nil {α : Type _} (k : String) : alookup ([] : List (String × α)) k = none := rfl

theorem alookup_cons {α : Type _} (p : String × α) (l : List (String × α)) (k : String) :
    alookup (p :: l) k = if p.1 == k then some p.2 else alookup l k := by
  by_cases h : p.1 == k <;> simp [alookup, List.find?, h]

theorem alookup_append_left {α : Type _} {l m : List (String × α)} {k : String} {v : α}
    (h : alookup l k = some v) : alookup (l ++ m) k = some v := by
  induction l with
  | nil => simp [alookup_nil] at h
  | cons p t ih =>
    rw [List.cons_append, alookup_cons] at *
    by_cases hp : p.1 == k
    · simpa [hp] using h
    · rw [if_neg hp] at h ⊢
      exact ih h

theorem alookup_append_none {α : Type _} {l : List (String × α)} {k : String}
    (h : alookup l k = none) (m : List (String × α)) : alookup (l ++ m) k = alookup m k := by
  induction l with
  | nil => simp
  | cons p t ih =>
    rw [alookup_cons] at h
    by_cases hp : p.1 == k
    · simp [hp] at h
    · rw [if_neg hp] at h
      rw [List.cons_append, alookup_cons, if_neg hp]
      exact ih h

theorem alookup_append_write {α : Type _} {l : List (String × α)} {k : String}
    (h : alookup l k = none) (v : α) : alookup (l ++ [(k, v)]) k = some v := by
  rw [alookup_append_none h, alookup_cons]
  simp

theorem alookup_isSome_append {α : Type _} {l : List (String × α)} {k : String}
    (h : (alookup l k).isSome = true) (m : List (String × α)) :
    (alookup (l ++ m) k).isSome = true := by
  obtain ⟨v, hv⟩ := Option.isSome_iff_exists.mp h
  rw [alookup_append_left hv]
  rfl

theorem alookup_none_of_find?_none {α : Type _} {l : List (String × α)} {k : String}
    (h : l.find? (fun p => p.1 == k) = none) : alookup l k = none := by
  simp [alookup, h]

theorem alookup_map_overwrite_self (l : List (String × String)) (k v : String)
    (h : (alookup l k).isSome = true) :
    alookup (l.map (fun p => if p.1 == k then (k, v) else p)) k = some v := by
  induction l with
  | nil => simp [alookup_nil] at h
  | cons p t ih =>
    rw [alookup_cons] at h
    by_cases hp : p.1 == k
    · have hpk : p.1 = k := by simpa using hp
      simp [List.map_cons, hpk, alookup_cons]
    · simp only [hp, Bool.false_eq_true, if_false] at h
      simp only [List.map_cons, if_neg hp, alookup_cons, hp, Bool.false_eq_true, if_false]
      exact ih h

theorem alookup_map_overwrite_other (l : List (String × String)) (k v k' : String)
    (h : k' ≠ k) :
    alookup (l.map (fun p => if p.1 == k then (k, v) else p)) k' = alookup l k' := by
  induction l with
  | nil => rfl
  | cons p t ih =>
    by_cases hp : p.1 == k
    · have hpk : p.1 = k := by simpa using hp
      have h1 : (k == k') = false := by
        simp only [beq_eq_false_iff_ne]
        exact fun hh => h hh.symm
      have h2 : (p.1 == k') = false := by
        rw [hpk]
        simp only [beq_eq_false_iff_ne]
        exact fun hh => h hh.symm
      simp only [List.map_cons, if_pos hp, alookup_cons, h1, h2, Bool.false_eq_true, if_false]
      exact ih
    · simp only [List.map_cons, if_neg hp, alookup_cons]
      by_cases hq : p.1 == k'
      · simp [hq]
      · simp only [hq, Bool.false_eq_true, if_false]
        exact ih

theorem alookup_setKey_self (l : List (String × String)) (k v : String) :
    alookup (setKey l k v) k = some v := by
  unfold setKey
  by_cases hf : (l.find? (fun p => p.1 == k)).isSome
  · rw [if_pos hf]
    apply alookup_map_overwrite_self
    rcases hfind : l.find? (fun p => p.1 == k) with _ | q
    · rw [hfind] at hf; simp at hf
    · simp [alookup, hfind]
  · rw [if_neg hf]
    have hn : alookup l k = none := by
      apply alookup_none_of_find?_none
      exact Option.not_isSome_iff_eq_none.mp hf
    rw [alookup_append_none hn, alookup_cons]
    simp

theorem alookup_setKey_other (l : List (String × String)) (k v k' : String) (h : k' ≠ k) :
    alookup (setKey l k v) k' = alookup l k' := by
  unfold setKey
  by_cases hf : (l.find? (fun p => p.1 == k)).isSome
  · rw [if_pos hf]
    exact alookup_map_overwrite_other l k v k' h
  · rw [if_neg hf]
    rcases hl : alookup l k' with _ | w
    · rw [alookup_append_none hl, alookup_cons]
      have : (k == k') = false := by
        simp only [beq_eq_false_iff_ne]
        exact fun hh => h hh.symm
      simp [this, alookup_nil]
    · rw [alookup_append_left hl]

/-! ### Branch equations and structural facts for the assembly step -/

theorem cacheStep_true_hit {τ : Type} {M : Model τ} {st : AssembleState τ} {entry : Entry τ}
    {key : String} {v : Value} {rt : String} {oup : Bool} {emb : List τ}
    (huc : st.use_cache = true) (hc : alookup entry.cache key = some emb) :
    cacheStep M st entry key v rt oup =
      .ok ({ st with position := st.position + emb.length, open_user_prompt := oup }, entry) := by
  simp [cacheStep, huc, hc]

theorem cacheStep_true_miss_notbot {τ : Type} {M : Model τ} {st : AssembleState τ} {entry : Entry τ}
    {key : String} {v : Value} {rt : String} {oup : Bool} {emb : List τ}
    (huc : st.use_cache = true) (hc : alookup entry.cache key = none)
    (he : ChatHistory.embed M v key (some rt) = .ok emb) (hb : entry.role ≠ "bot") :
    cacheStep M st entry key v rt oup =
      .ok ({ st with
               embeddings := st.embeddings ++ [emb],
               use_cache := false,
               open_user_prompt := if key = "image" then true else oup },
           { entry with cache := entry.cache ++ [(key, emb)] }) := by
  simp [cacheStep, huc, hc, he, hb]

theorem cacheStep_true_miss_bot {τ : Type} {M : Model τ} {st : AssembleState τ} {entry : Entry τ}
    {key : String} {v : Value} {rt : String} {oup : Bool} {emb : List τ}
    (huc : st.use_cache = true) (hc : alookup entry.cache key = none)
    (he : ChatHistory.embed M v key (some rt) = .ok emb) (hb : entry.role = "bot") :
    cacheStep M st entry key v rt oup =
      .ok ({ st with position := st.position + emb.length, open_user_prompt := oup },
           { entry with cache := entry.cache ++ [(key, emb)] }) := by
  simp [cacheStep, huc, hc, he, hb]

theorem cacheStep_false_hit {τ : Type} {M : Model τ} {st : AssembleState τ} {entry : Entry τ}
    {key : String} {v : Value} {rt : String} {oup : Bool} {emb : List τ}
    (huc : st.use_cache = false) (hc : alookup entry.cache key = some emb) :
    cacheStep M st entry key v rt oup =
      .ok ({ st with embeddings := st.embeddings ++ [emb], open_user_prompt := oup }, entry) := by
  simp [cacheStep, huc, hc]

theorem cacheStep_false_miss {τ : Type} {M : Model τ} {st : AssembleState τ} {entry : Entry τ}
    {key : String} {v : Value} {rt : String} {oup : Bool} {emb : List τ}
    (huc : st.use_cache = false) (hc : alookup entry.cache key = none)
    (he : ChatHistory.embed M v key (some rt) = .ok emb) :
    cacheStep M st entry key v rt oup =
      .ok ({ st with
               embeddings := st.embeddings ++ [emb],
               open_user_prompt := if key = "image" then true else oup },
           { entry with cache := entry.cache ++ [(key, emb)] }) := by
  simp [cacheStep, huc, hc, he]

theorem cacheStep_embed_err {τ : Type} {M : Model τ} {st : AssembleState τ} {entry : Entry τ}
    {key : String} {v : Value} {rt : String} {oup : Bool} {e0 : ChatError}
    (hc : alookup entry.cache key = none)
    (he : ChatHistory.embed M v key (some rt) = .error e0) :
    cacheStep M st entry key v rt oup = .error e0 := by
  rcases huc : st.use_cache with _ | _ <;> simp [cacheStep, huc, hc, he]

theorem processItem_skip_none {τ : Type} (M : Model τ) (tpl : List (String × String))
    (st : AssembleState τ) (e : Entry τ) (key : String) :
    processItem M tpl st e (key, none) = .ok (st, e) := rfl

theorem processItem_skip_unreg {τ : Type} (M : Model τ) (tpl : List (String × String))
    (st : AssembleState τ) (e : Entry τ) (key : String) (v : Value)
    (h : embedding_functions.contains key = false) :
    processItem M tpl st e (key, some v) = .ok (st, e) := by
  simp only [processItem]
  rw [if_pos h]

theorem processItem_skip {τ : Type} (M : Model τ) (tpl : List (String × String))
    (st : AssembleState τ) (e : Entry τ) (item : String × Option Value)
    (h : embeddableItem item = false) :
    processItem M tpl st e item = .ok (st, e) := by
  obtain ⟨key, ov⟩ := item
  cases ov with
  | none => rfl
  | some v =>
    apply processItem_skip_unreg
    simpa [embeddableItem] using h

theorem processItem_ct_err {τ : Type} {M : Model τ} {tpl : List (String × String)}
    {st : AssembleState τ} {e : Entry τ} {key : String} {v : Value} {e0 : ChatError}
    (hr : embedding_functions.contains key = true)
    (hct : chooseTemplate tpl e.role st.num_user_prompts st.open_user_prompt = .error e0) :
    processItem M tpl st e (key, some v) = .error e0 := by
  simp only [processItem]
  rw [if_neg (by rw [hr]; simp)]
  simp only [hct]

theorem processItem_reg_ok {τ : Type} {M : Model τ} {tpl : List (String × String)}
    {st : AssembleState τ} {e : Entry τ} {key : String} {v : Value}
    {rt : String} {oup : Bool} {st2 : AssembleState τ} {e2 : Entry τ}
    (hr : embedding_functions.contains key = true)
    (hct : chooseTemplate tpl e.role st.num_user_prompts st.open_user_prompt = .ok (rt, oup))
    (hcs : cacheStep M st e key v rt oup = .ok (st2, e2)) :
    processItem M tpl st e (key, some v) =
      .ok ({ st2 with
               num_user_prompts := st2.num_user_prompts +
                 (if e.role = "user" ∧ key = "text" then 1 else 0) }, e2) := by
  simp only [processItem]
  rw [if_neg (by rw [hr]; simp)]
  simp only [hct, hcs]

theorem processItem_reg_err {τ : Type} {M : Model τ} {tpl : List (String × String)}
    {st : AssembleState τ} {e : Entry τ} {key : String} {v : Value}
    {rt : String} {oup : Bool} {e0 : ChatError}
    (hr : embedding_functions.contains key = true)
    (hct : chooseTemplate tpl e.role st.num_user_prompts st.open_user_prompt = .ok (rt, oup))
    (hcs : cacheStep M st e key v rt oup = .error e0) :
    processItem M tpl st e (key, some v) = .error e0 := by
  simp only [processItem]
  rw [if_neg (by rw [hr]; simp)]
  simp only [hct, hcs]

theorem processItem_ok_inv {τ : Type} {M : Model τ} {tpl : List (String × String)}
    {st : AssembleState τ} {e : Entry τ} {key : String} {v : Value}
    {st' : AssembleState τ} {e' : Entry τ}
    (hr : embedding_functions.contains key = true)
    (h : processItem M tpl st e (key, some v) = .ok (st', e')) :
    ∃ rt oup st2,
      chooseTemplate tpl e.role st.num_user_prompts st.open_user_prompt = .ok (rt, oup) ∧
      cacheStep M st e key v rt oup = .ok (st2, e') ∧
      st' = { st2 with
                num_user_prompts := st2.num_user_prompts +
                  (if e.role = "user" ∧ key = "text" then 1 else 0) } := by
  rcases hct : chooseTemplate tpl e.role st.num_user_prompts st.open_user_prompt with e0 | ⟨rt, oup⟩
  · rw [processItem_ct_err hr hct] at h
    exact absurd h (by simp)
  · rcases hcs : cacheStep M st e key v rt oup with e0 | ⟨st2, e2⟩
    · rw [processItem_reg_err hr hct hcs] at h
      exact absurd h (by simp)
    · rw [processItem_reg_ok hr hct hcs] at h
      simp only [Except.ok.injEq, Prod.mk.injEq] at h
      obtain ⟨hst, he⟩ := h
      subst he
      exact ⟨rt, oup, st2, rfl, hcs, hst.symm⟩

theorem cacheStep_ok_spec {τ : Type} {M : Model τ} {st : AssembleState τ} {e : Entry τ}
    {key : String} {v : Value} {rt : String} {oup : Bool}
    {st' : AssembleState τ} {e' : Entry τ}
    (h : cacheStep M st e key v rt oup = .ok (st', e')) :
    e'.role = e.role ∧ e'.content = e.content ∧ (∃ d, e'.cache = e.cache ++ d) ∧
    st'.num_user_prompts = st.num_user_prompts ∧
    (alookup e'.cache key).isSome = true ∧
    (∃ g, st'.embeddings = st.embeddings ++ g) ∧
    (st.use_cache = false → st'.use_cache = false ∧ st'.position = st.position) := by
  cases huc : st.use_cache with
  | false =>
    rcases hc : alookup e.cache key with _ | emb
    · rcases he : ChatHistory.embed M v key (some rt) with e0 | emb
      · rw [cacheStep_embed_err hc he] at h
        exact absurd h (by simp)
      · rw [cacheStep_false_miss huc hc he] at h
        simp only [Except.ok.injEq, Prod.mk.injEq] at h
        obtain ⟨h1, h2⟩ := h
        subst h1; subst h2
        refine ⟨rfl, rfl, ⟨[(key, emb)], rfl⟩, rfl, ?_, ⟨[emb], rfl⟩, fun _ => ⟨huc, rfl⟩⟩
        rw [alookup_append_write hc]
        rfl
    · rw [cacheStep_false_hit huc hc] at h
      simp only [Except.ok.injEq, Prod.mk.injEq] at h
      obtain ⟨h1, h2⟩ := h
      subst h1; subst h2
      exact ⟨rfl, rfl, ⟨[], by simp⟩, rfl, by rw [hc]; rfl, ⟨[emb], rfl⟩, fun _ => ⟨huc, rfl⟩⟩
  | true =>
    rcases hc : alookup e.cache key with _ | emb
    · rcases he : ChatHistory.embed M v key (some rt) with e0 | emb
      · rw [cacheStep_embed_err hc he] at h
        exact absurd h (by simp)
      · by_cases hb : e.role = "bot"
        · rw [cacheStep_true_miss_bot huc hc he hb] at h
          simp only [Except.ok.injEq, Prod.mk.injEq] at h
          obtain ⟨h1, h2⟩ := h
          subst h1; subst h2
          refine ⟨rfl, rfl, ⟨[(key, emb)], rfl⟩, rfl, ?_, ⟨[], by simp⟩,
            fun hf => Bool.noConfusion hf⟩
          rw [alookup_append_write hc]
          rfl
        · rw [cacheStep_true_miss_notbot huc hc he hb] at h
          simp only [Except.ok.injEq, Prod.mk.injEq] at h
          obtain ⟨h1, h2⟩ := h
          subst h1; subst h2
          refine ⟨rfl, rfl, ⟨[(key, emb)], rfl⟩, rfl, ?_, ⟨[emb], rfl⟩,
            fun hf => Bool.noConfusion hf⟩
          rw [alookup_append_write hc]
          rfl
    · rw [cacheStep_true_hit huc hc] at h
      simp only [Except.ok.injEq, Prod.mk.injEq] at h
      obtain ⟨h1, h2⟩ := h
      subst h1; subst h2
      exact ⟨rfl, rfl, ⟨[], by simp⟩, rfl, by rw [hc]; rfl, ⟨[], by simp⟩,
        fun hf => Bool.noConfusion hf⟩

theorem processItem_ok_spec {τ : Type} {M : Model τ} {tpl : List (String × String)}
    {st : AssembleState τ} {e : Entry τ} {item : String × Option Value}
    {st' : AssembleState τ} {e' : Entry τ}
    (h : processItem M tpl st e item = .ok (st', e')) :
    e'.role = e.role ∧ e'.content = e.content ∧ (∃ d, e'.cache = e.cache ++ d) ∧
    st'.num_user_prompts = st.num_user_prompts + nupBump e.role item ∧
    (embeddableItem item = true → (alookup e'.cache item.1).isSome = true) ∧
    (∃ g, st'.embeddings = st.embeddings ++ g) ∧
    (st.use_cache = false → st'.use_cache = false ∧ st'.position = st.position) := by
  obtain ⟨key, ov⟩ := item
  cases ov with
  | none =>
    rw [processItem_skip_none] at h
    simp only [Except.ok.injEq, Prod.mk.injEq] at h
    obtain ⟨h1, h2⟩ := h
    subst h1; subst h2
    exact ⟨rfl, rfl, ⟨[], by simp⟩, by simp [nupBump, embeddableItem],
      by simp [embeddableItem], ⟨[], by simp⟩, fun hf => ⟨hf, rfl⟩⟩
  | some v =>
    cases hr : embedding_functions.contains key with
    | false =>
      have hr2 : key ∉ embedding_functions := by simpa using hr
      rw [processItem_skip_unreg M tpl st e key v hr] at h
      simp only [Except.ok.injEq, Prod.mk.injEq] at h
      obtain ⟨h1, h2⟩ := h
      subst h1; subst h2
      exact ⟨rfl, rfl, ⟨[], by simp⟩, by simp [nupBump, embeddableItem, hr2],
        by simp [embeddableItem, hr2], ⟨[], by simp⟩, fun hf => ⟨hf, rfl⟩⟩
    | true =>
      obtain ⟨rt, oup, st2, hct, hcs, hst⟩ := processItem_ok_inv hr h
      obtain ⟨hrole, hcont, hcache, hnup, hsome, hemb, hucp⟩ := cacheStep_ok_spec hcs
      subst hst
      refine ⟨hrole, hcont, hcache, ?_, fun _ => hsome, hemb, hucp⟩
      show st2.num_user_prompts + _ = _
      rw [hnup]
      congr 1
      have hr2 : key ∈ embedding_functions := by simpa using hr
      simp [nupBump, embeddableItem, hr2]

theorem processItems_spec {τ : Type} {M : Model τ} {tpl : List (String × String)}
    (items : List (String × Option Value)) :
    ∀ (st : AssembleState τ) (e : Entry τ) (st' : AssembleState τ) (e' : Entry τ)
      (err : Option ChatError),
      processItems M tpl st e items = ((st', e'), err) →
      e'.role = e.role ∧ e'.content = e.content ∧ (∃ d, e'.cache = e.cache ++ d) ∧
      (st.use_cache = false → st'.use_cache = false ∧ st'.position = st.position) ∧
      (err = none →
        st'.num_user_prompts = st.num_user_prompts + (items.map (nupBump e.role)).sum ∧
        ∀ kv ∈ items, embeddableItem kv = true → (alookup e'.cache kv.1).isSome = true) := by
  induction items with
  | nil =>
    intro st e st' e' err h
    simp only [processItems, Prod.mk.injEq] at h
    obtain ⟨⟨h1, h2⟩, h3⟩ := h
    subst h1; subst h2; subst h3
    exact ⟨rfl, rfl, ⟨[], by simp⟩, fun hf => ⟨hf, rfl⟩, fun _ => ⟨by simp, by simp⟩⟩
  | cons item rest ih =>
    intro st e st' e' err h
    simp only [processItems] at h
    rcases hpi : processItem M tpl st e item with e0 | ⟨st2, e2⟩ <;> rw [hpi] at h
    · simp only [Prod.mk.injEq] at h
      obtain ⟨⟨h1, h2⟩, h3⟩ := h
      subst h1; subst h2; subst h3
      exact ⟨rfl, rfl, ⟨[], by simp⟩, fun hf => ⟨hf, rfl⟩, fun hn => by cases hn⟩
    · obtain ⟨hrole, hcont, ⟨d1, hcache1⟩, hnup1, hsome1, _, hucp1⟩ := processItem_ok_spec hpi
      obtain ⟨hrole2, hcont2, ⟨d2, hcache2⟩, hucp2, hrest⟩ := ih st2 e2 st' e' err h
      refine ⟨hrole2.trans hrole, hcont2.trans hcont,
        ⟨d1 ++ d2, by rw [hcache2, hcache1, List.append_assoc]⟩, ?_, ?_⟩
      · intro hf
        obtain ⟨hu1, hp1⟩ := hucp1 hf
        obtain ⟨hu2, hp2⟩ := hucp2 hu1
        exact ⟨hu2, hp2.trans hp1⟩
      · intro hn
        obtain ⟨hnup2, hcached2⟩ := hrest hn
        constructor
        · rw [hnup2, hnup1, hrole]
          simp [Nat.add_assoc]
        · intro kv hkv hemb
          rcases List.mem_cons.mp hkv with h9 | h9
        
          · subst h9
            obtain ⟨w, hw⟩ := Option.isSome_iff_exists.mp (hsome1 hemb)
            rw [hcache2, alookup_append_left hw]
            rfl
          · exact hcached2 kv h9 hemb

theorem forall2_entry_refl {τ : Type} (es : List (Entry τ)) :
    List.Forall₂
      (fun e e' => e'.role = e.role ∧ e'.content = e.content ∧ ∃ d, e'.cache = e.cache ++ d)
      es es := by
  induction es with
  | nil => exact List.Forall₂.nil
  | cons e t ih => exact List.Forall₂.cons ⟨rfl, rfl, ⟨[], by simp⟩⟩ ih

theorem processEntries_cons_err {τ : Type} {M : Model τ} {tpl : List (String × String)}
    {st : AssembleState τ} {e : Entry τ} {rest : List (Entry τ)}
    {st2 : AssembleState τ} {e2 : Entry τ} {e0 : ChatError}
    (hpi : processItems M tpl st e e.content = ((st2, e2), some e0)) :
    processEntries M tpl st (e :: rest) = ((st2, e2 :: rest), some e0) := by
  simp only [processEntries, hpi]

theorem processEntries_cons_none {τ : Type} {M : Model τ} {tpl : List (String × String)}
    {st : AssembleState τ} {e : Entry τ} {rest : List (Entry τ)}
    {st2 : AssembleState τ} {e2 : Entry τ} {st3 : AssembleState τ} {rest2 : List (Entry τ)}
    {err2 : Option ChatError}
    (hpi : processItems M tpl st e e.content = ((st2, e2), none))
    (hpe : processEntries M tpl st2 rest = ((st3, rest2), err2)) :
    processEntries M tpl st (e :: rest) = ((st3, e2 :: rest2), err2) := by
  simp only [processEntries, hpi, hpe]

theorem processEntries_spec {τ : Type} {M : Model τ} {tpl : List (String × String)}
    (es : List (Entry τ)) :
    ∀ (st st' : AssembleState τ) (es' : List (Entry τ)) (err : Option ChatError),
      processEntries M tpl st es = ((st', es'), err) →
      List.Forall₂
        (fun e e' => e'.role = e.role ∧ e'.content = e.content ∧ ∃ d, e'.cache = e.cache ++ d)
        es es' ∧
      (st.use_cache = false → st'.use_cache = false ∧ st'.position = st.position) ∧
      (err = none → ∀ e' ∈ es', ∀ kv ∈ e'.content, embeddableItem kv = true →
        (alookup e'.cache kv.1).isSome = true) := by
  induction es with
  | nil =>
    intro st st' es' err h
    simp only [processEntries, Prod.mk.injEq] at h
    obtain ⟨⟨h1, h2⟩, h3⟩ := h
    subst h1; subst h2; subst h3
    exact ⟨List.Forall₂.nil, fun hf => ⟨hf, rfl⟩, by simp⟩
  | cons e rest ih =>
    intro st st' es' err h
    rcases hpi : processItems M tpl st e e.content with ⟨⟨st2, e2⟩, ierr⟩
    obtain ⟨hrole, hcont, hcache, hucp1, hitems⟩ := processItems_spec e.content st e st2 e2 ierr hpi
    cases ierr with
    | some e0 =>
      rw [processEntries_cons_err hpi] at h
      simp only [Prod.mk.injEq] at h
      obtain ⟨⟨h1, h2⟩, h3⟩ := h
      subst h1; subst h2; subst h3
      exact ⟨List.Forall₂.cons ⟨hrole, hcont, hcache⟩ (forall2_entry_refl rest),
        hucp1, fun hn => by cases hn⟩
    | none =>
      rcases hpe : processEntries M tpl st2 rest with ⟨⟨st3, rest2⟩, err2⟩
      obtain ⟨hf2, hucp2, hcached2⟩ := ih st2 st3 rest2 err2 hpe
      rw [processEntries_cons_none hpi hpe] at h
      simp only [Prod.mk.injEq] at h
      obtain ⟨⟨h1, h2⟩, h3⟩ := h
      subst h1; subst h2; subst h3
      refine ⟨List.Forall₂.cons ⟨hrole, hcont, hcache⟩ hf2, ?_, ?_⟩
      · intro hf
        obtain ⟨hu1, hp1⟩ := hucp1 hf
        obtain ⟨hu2, hp2⟩ := hucp2 hu1
        exact ⟨hu2, hp2.trans hp1⟩
      · intro hn e3 he3 kv hkv hemb
        rcases List.mem_cons.mp he3 with h9 | h9
        · subst h9
          apply (hitems rfl).2 kv
          · rw [← hcont]; exact hkv
          · exact hemb
        · exact hcached2 hn e3 h9 kv hkv hemb

/-! ### A fully cached pass: the second of two consecutive cached assemblies -/

theorem chooseTemplate_pass2 {tpl : List (String × String)} {role : String} {nup : Nat}
    {oup : Bool} {rt : String} {o : Bool}
    (h : chooseTemplate tpl role nup oup = .ok (rt, o)) :
    ∃ rt2, chooseTemplate tpl role nup false = .ok (rt2, false) := by
  unfold chooseTemplate at h ⊢
  by_cases hc : (alookup tpl "first").isSome ∧ role = "user" ∧ nup = 0
  · rw [if_pos hc] at h ⊢
    exact ⟨_, rfl⟩
  · rw [if_neg hc] at h ⊢
    rcases hl : alookup tpl role with _ | rt0
    · simp only [hl] at h
      exact absurd h (by simp)
    · simp only [hl]
      exact ⟨rt0, by simp⟩

theorem processItem_pass2 {τ : Type} {M : Model τ} {tpl : List (String × String)}
    {st1 : AssembleState τ} {e1 : Entry τ} {item : String × Option Value}
    {st1' : AssembleState τ} {e1' : Entry τ} {st2 : AssembleState τ} {e2 : Entry τ}
    (h1 : processItem M tpl st1 e1 item = .ok (st1', e1'))
    (hrole : e2.role = e1.role)
    (hnup : st2.num_user_prompts = st1.num_user_prompts)
    (hcache : embeddableItem item = true → (alookup e2.cache item.1).isSome = true)
    (huc : st2.use_cache = true) (houp : st2.open_user_prompt = false) :
    ∃ p, processItem M tpl st2 e2 item =
      .ok ({ embeddings := st2.embeddings, position := p,
             num_user_prompts := st2.num_user_prompts + nupBump e1.role item,
             open_user_prompt := false, use_cache := true }, e2) := by
  obtain ⟨E2, p2, n2, o2, u2⟩ := st2
  simp only at huc houp hnup
  subst huc; subst houp
  obtain ⟨key, ov⟩ := item
  cases ov with
  | none =>
    refine ⟨p2, ?_⟩
    rw [processItem_skip_none]
    simp [nupBump, embeddableItem]
  | some v =>
    cases hr : embedding_functions.contains key with
    | false =>
      refine ⟨p2, ?_⟩
      rw [processItem_skip_unreg M tpl _ e2 key v hr]
      have hr2 : key ∉ embedding_functions := by simpa using hr
      simp [nupBump, embeddableItem, hr2]
    | true =>
      obtain ⟨rt, oup, st1m, hct, hcs, hst⟩ := processItem_ok_inv hr h1
      rw [← hrole] at hct
      rw [← hnup] at hct
      obtain ⟨rt2, hct2⟩ := chooseTemplate_pass2 hct
      have hemb : embeddableItem (key, some v) = true := by
        have hr2 : key ∈ embedding_functions := by simpa using hr
        simp [embeddableItem, hr2]
      obtain ⟨emb, hcemb⟩ := Option.isSome_iff_exists.mp (hcache hemb)
      refine ⟨p2 + emb.length, ?_⟩
      have hcs2 := @cacheStep_true_hit τ M ⟨E2, p2, n2, false, true⟩ e2 key v rt2 false emb
        rfl hcemb
      rw [processItem_reg_ok hr hct2 hcs2]
      have hb : nupBump e1.role (key, some v) = if e2.role = "user" ∧ key = "text" then 1 else 0 := by
        have hr2 : key ∈ embedding_functions := by simpa using hr
        simp [nupBump, embeddableItem, hr2, hrole]
      rw [hb]

theorem processItems_pass2 {τ : Type} {M : Model τ} {tpl : List (String × String)}
    (items : List (String × Option Value)) :
    ∀ (st1 : AssembleState τ) (e1 : Entry τ) (st1' : AssembleState τ) (e1' : Entry τ)
      (st2 : AssembleState τ) (e2 : Entry τ),
      processItems M tpl st1 e1 items = ((st1', e1'), none) →
      e2.role = e1.role →
      st2.num_user_prompts = st1.num_user_prompts →
      (∀ kv ∈ items, embeddableItem kv = true → (alookup e2.cache kv.1).isSome = true) →
      st2.use_cache = true → st2.open_user_prompt = false →
      ∃ p, processItems M tpl st2 e2 items =
        (({ embeddings := st2.embeddings, position := p,
            num_user_prompts := st2.num_user_prompts + (items.map (nupBump e1.role)).sum,
            open_user_prompt := false, use_cache := true }, e2), none) := by
  induction items with
  | nil =>
    intro st1 e1 st1' e1' st2 e2 h1 hrole hnup hcache huc houp
    obtain ⟨E2, p2, n2, o2, u2⟩ := st2
    simp only at huc houp
    subst huc; subst houp
    exact ⟨p2, by simp [processItems]⟩
  | cons item rest ih =>
    intro st1 e1 st1' e1' st2 e2 h1 hrole hnup hcache huc houp
    simp only [processItems] at h1
    rcases hpi : processItem M tpl st1 e1 item with e0 | ⟨st1m, e1m⟩ <;> rw [hpi] at h1
    · simp at h1
    · obtain ⟨p, hp⟩ := processItem_pass2 hpi hrole hnup
        (fun hkv => hcache item (List.mem_cons_self item rest) hkv) huc houp
      obtain ⟨hrolem, _, _, hnupm, _, _, _⟩ := processItem_ok_spec hpi
      obtain ⟨pf, hpf⟩ := ih st1m e1m st1' e1'
        { embeddings := st2.embeddings, position := p,
          num_user_prompts := st2.num_user_prompts + nupBump e1.role item,
          open_user_prompt := false, use_cache := true } e2 h1
        (hrole.trans hrolem.symm)
        (by show st2.num_user_prompts + nupBump e1.role item = st1m.num_user_prompts
            rw [hnupm, hnup])
        (fun kv hkv hemb => hcache kv (List.mem_cons_of_mem item hkv) hemb)
        rfl rfl
      refine ⟨pf, ?_⟩
      simp only [processItems, hp]
      rw [hpf]
      have harith : (st2.num_user_prompts + nupBump e1.role item) +
          (rest.map (nupBump e1m.role)).sum =
          st2.num_user_prompts + ((item :: rest).map (nupBump e1.role)).sum := by
        rw [hrolem]
        simp [Nat.add_assoc]
      rw [harith]

theorem processEntries_pass2 {τ : Type} {M : Model τ} {tpl : List (String × String)}
    (es : List (Entry τ)) :
    ∀ (st1 st1' : AssembleState τ) (es' : List (Entry τ)),
      processEntries M tpl st1 es = ((st1', es'), none) →
      ∀ (E2 : List (List τ)) (p2 : Nat),
      ∃ p, processEntries M tpl
          { embeddings := E2, position := p2, num_user_prompts := st1.num_user_prompts,
            open_user_prompt := false, use_cache := true } es' =
        (({ embeddings := E2, position := p, num_user_prompts := st1'.num_user_prompts,
            open_user_prompt := false, use_cache := true }, es'), none) := by
  induction es with
  | nil =>
    intro st1 st1' es' h E2 p2
    simp only [processEntries, Prod.mk.injEq] at h
    obtain ⟨⟨h1, h2⟩, _⟩ := h
    subst h1; subst h2
    exact ⟨p2, by simp [processEntries]⟩
  | cons e rest ih =>
    intro st1 st1' es' h E2 p2
    rcases hpi : processItems M tpl st1 e e.content with ⟨⟨st1m, e2⟩, ierr⟩
    cases ierr with
    | some e0 =>
      rw [processEntries_cons_err hpi] at h
      simp at h
    | none =>
      rcases hpe : processEntries M tpl st1m rest with ⟨⟨st1f, rest2⟩, err2⟩
      rw [processEntries_cons_none hpi hpe] at h
      simp only [Prod.mk.injEq] at h
      obtain ⟨⟨h1, h2⟩, h3⟩ := h
      subst h1; subst h2; subst h3
      obtain ⟨hroleI, hcontI, _, _, hitemsI⟩ := processItems_spec e.content st1 e st1m e2 none hpi
      have hnupI := (hitemsI rfl).1
      have hcached := (hitemsI rfl).2
      obtain ⟨pm, hpm⟩ := processItems_pass2 e.content st1 e st1m e2
        { embeddings := E2, position := p2, num_user_prompts := st1.num_user_prompts,
          open_user_prompt := false, use_cache := true } e2 hpi hroleI rfl
        (fun kv hkv hemb => hcached kv hkv hemb) rfl rfl
      have hpm2 : processItems M tpl
          { embeddings := E2, position := p2, num_user_prompts := st1.num_user_prompts,
            open_user_prompt := false, use_cache := true } e2 e2.content =
          (({ embeddings := E2, position := pm, num_user_prompts := st1m.num_user_prompts,
              open_user_prompt := false, use_cache := true }, e2), none) := by
        rw [hcontI, hpm, hnupI]
      obtain ⟨pfin2, hfin2⟩ := ih st1m st1f rest2 hpe E2 pm
      refine ⟨pfin2, ?_⟩
      exact processEntries_cons_none hpm2 hfin2

theorem embed_chat_def_err {τ : Type} {M : Model τ} {b : Bool} {c : ChatHistory τ}
    {st1 : AssembleState τ} {es1 : List (Entry τ)} {e0 : ChatError}
    (hpe : processEntries M c.template
      { embeddings := [], position := 0, num_user_prompts := 0,
        open_user_prompt := false, use_cache := b } c.entries = ((st1, es1), some e0)) :
    ChatHistory.embed_chat M b c = ({ c with entries := es1 }, .error e0) := by
  simp only [ChatHistory.embed_chat, hpe]

theorem embed_chat_def_none {τ : Type} {M : Model τ} {b : Bool} {c : ChatHistory τ}
    {st1 : AssembleState τ} {es1 : List (Entry τ)}
    (hpe : processEntries M c.template
      { embeddings := [], position := 0, num_user_prompts := 0,
        open_user_prompt := false, use_cache := b } c.entries = ((st1, es1), none)) :
    ChatHistory.embed_chat M b c =
      if st1.embeddings.isEmpty then ({ c with entries := es1 }, .error .emptyConcat)
      else ({ c with entries := es1 }, .ok (st1.embeddings.flatten, st1.position)) := by
  simp only [ChatHistory.embed_chat, hpe]

/-- C2 (corrected): calling `embed_chat` with `use_cache=true` twice in a row
with no entries added in between does NOT return an empty fresh tensor on the
second call.  Instead, because every segment of the second pass is a cache hit,
nothing at all is emitted and the final `np.concatenate([])` raises
`ValueError`; the entries (and all their cached embeddings) are unchanged. -/
theorem claim_C2 {τ : Type} {M : Model τ} {c c' : ChatHistory τ} {r : List τ × Nat}
    (h : ChatHistory.embed_chat M true c = (c', .ok r)) :
    ChatHistory.embed_chat M true c' = (c', .error .emptyConcat) := by
  rcases hpe : processEntries M c.template
      { embeddings := [], position := 0, num_user_prompts := 0,
        open_user_prompt := false, use_cache := true } c.entries with ⟨⟨st1, es1⟩, err⟩
  cases err with
  | some e0 =>
    rw [embed_chat_def_err hpe] at h
    simp at h
  | none =>
    rw [embed_chat_def_none hpe] at h
    by_cases hemp : st1.embeddings.isEmpty
    · rw [if_pos hemp] at h
      simp at h
    · rw [if_neg hemp] at h
      simp only [Prod.mk.injEq] at h
      obtain ⟨hc2, _⟩ := h
      subst hc2
      obtain ⟨p, hp2⟩ := processEntries_pass2 c.entries _ _ _ hpe [] 0
      have hpe2 : processEntries M c.template
          { embeddings := [], position := 0, num_user_prompts := 0,
            open_user_prompt := false, use_cache := true } es1 =
          (({ embeddings := ([] : List (List τ)), position := p,
              num_user_prompts := st1.num_user_prompts,
              open_user_prompt := false, use_cache := true }, es1), none) := hp2
      rw [@embed_chat_def_none τ M true { c with entries := es1 } _ es1 hpe2]
      simp

/-- C2 counterexample: with the llama-2 template and a single user entry, the
first cached assembly succeeds, but repeating the call on the resulting
history raises the empty-concatenation error instead of returning an empty
tensor with an unchanged position, refuting the claim at this input. -/
theorem claim_C2_cx :
    ChatHistory.embed_chat Mstr true chatC2cx = (chatC2cxDone, .ok (["hello [/INST]"], 0)) ∧
    ChatHistory.embed_chat Mstr true chatC2cxDone = (chatC2cxDone, .error .emptyConcat) := by
  constructor
  · decide
  · decide

theorem claim_C2_witness :
    ChatHistory.embed_chat Mstr true chatC2w = (chatC2wDone, .ok (["sp\n\n"], 0)) ∧
    ChatHistory.embed_chat Mstr true chatC2wDone = (chatC2wDone, .error .emptyConcat) :=
  ⟨by decide, @claim_C2 String Mstr chatC2w chatC2wDone (["sp\n\n"], 0) (by decide)⟩

/-- C9 (confirmed): an assembly call that fails leaves every cached embedding
that existed before the call present and unchanged on its entry: the pass only
ever appends a cache slot for a key that had none, and an exception aborts the
pass without reverting or overwriting anything. -/
theorem claim_C9 {τ : Type} {M : Model τ} {b : Bool} {c c' : ChatHistory τ} {err : ChatError}
    (h : ChatHistory.embed_chat M b c = (c', .error err)) :
    List.Forall₂ (fun e e' => ∀ k v, alookup e.cache k = some v → alookup e'.cache k = some v)
      c.entries c'.entries := by
  rcases hpe : processEntries M c.template
      { embeddings := [], position := 0, num_user_prompts := 0,
        open_user_prompt := false, use_cache := b } c.entries with ⟨⟨st1, es1⟩, ierr⟩
  have hforall := (processEntries_spec c.entries _ _ _ _ hpe).1
  have hes : c'.entries = es1 := by
    cases ierr with
    | some e0 =>
      rw [embed_chat_def_err hpe] at h
      simp only [Prod.mk.injEq] at h
      rw [← h.1]
    | none =>
      rw [embed_chat_def_none hpe] at h
      by_cases hemp : st1.embeddings.isEmpty
      · rw [if_pos hemp] at h
        simp only [Prod.mk.injEq] at h
        rw [← h.1]
      · rw [if_neg hemp] at h
        simp at h
  rw [hes]
  refine List.Forall₂.imp ?_ hforall
  rintro e e' ⟨_, _, d, hd⟩ k v hk
  rw [hd]
  exact alookup_append_left hk

theorem claim_C9_witness :
    ChatHistory.embed_chat Mstr true chatC9w = (chatC9w, .error .attributeTemplateName) ∧
    List.Forall₂ (fun e e' => ∀ k v, alookup e.cache k = some v → alookup e'.cache k = some v)
      chatC9w.entries chatC9w.entries :=
  ⟨by decide, @claim_C9 String Mstr true chatC9w chatC9w ChatError.attributeTemplateName (by decide)⟩

/-- C1 (corrected): in a cached pass (`use_cache` still set), a content segment
whose key already has a cached embedding is not re-emitted (embeddings and
entry are unchanged) and its stored sequence length is added to the returned
cache position FOR EVERY ROLE, including `bot`: chat.py line 297-298 adds the
length on every cache hit with no role check (the `role != bot` distinction
applies only to freshly computed cache misses, lines 290-296). -/
theorem claim_C1 {τ : Type} {M : Model τ} {tpl : List (String × String)}
    {st : AssembleState τ} {e : Entry τ} {key : String} {v : Value} {emb : List τ}
    {rt : String} {o : Bool}
    (huc : st.use_cache = true)
    (hreg : embedding_functions.contains key = true)
    (hct : chooseTemplate tpl e.role st.num_user_prompts st.open_user_prompt = .ok (rt, o))
    (hc : alookup e.cache key = some emb) :
    processItem M tpl st e (key, some v) =
      .ok ({ st with
               position := st.position + emb.length,
               open_user_prompt := o,
               num_user_prompts := st.num_user_prompts +
                 (if e.role = "user" ∧ key = "text" then 1 else 0) }, e) := by
  rw [processItem_reg_ok hreg hct (cacheStep_true_hit huc hc)]

/-- C1 counterexample: a history holding a bot entry with a cached embedding of
length 3 followed by a fresh user entry.  The pass returns cache position 3:
the cached bot segment length IS counted, where the claim predicts position 0
(claiming the length is added if and only if the role is not bot). -/
theorem claim_C1_cx :
    (ChatHistory.embed_chat Mstr true chatC1cx).2 = .ok (["USER: q\n"], 3) := by decide

theorem claim_C1_witness :
    stC1w.use_cache = true ∧
    embedding_functions.contains "text" = true ∧
    chooseTemplate vicunaLikeTemplate entC1w.role stC1w.num_user_prompts stC1w.open_user_prompt =
      .ok ("ASSISTANT: ${MESSAGE}</s>\n", false) ∧
    alookup entC1w.cache "text" = some ["x", "y", "z"] ∧
    processItem Mstr vicunaLikeTemplate stC1w entC1w ("text", some (.str "hi")) =
      .ok ({ stC1w with
               position := stC1w.position + (["x", "y", "z"] : List String).length,
               open_user_prompt := false,
               num_user_prompts := stC1w.num_user_prompts +
                 (if entC1w.role = "user" ∧ "text" = "text" then 1 else 0) }, entC1w) :=
  ⟨by decide, by decide, by decide, by decide,
   @claim_C1 String Mstr vicunaLikeTemplate stC1w entC1w "text" (.str "hi") ["x", "y", "z"]
     "ASSISTANT: ${MESSAGE}</s>\n" false (by decide) (by decide) (by decide) (by decide)⟩

/-- C3 (corrected): the `first` role template, when defined, replaces the
chosen template for EVERY embeddable segment of a user-role entry processed
while the user-turn counter is still zero - not only for the first user text
segment: the check on chat.py line 272 does not test the content key, so image
segments (and segments of later user entries, if no user text has yet been
seen) also receive the `first` template; moreover the `first` branch skips the
open-user-prompt truncation.  Second conjunct: in every other case the
template of the declared role is used (with truncation when a user prompt is
open).  Third conjunct: the user-turn counter is incremented exactly by
processing an embeddable `text` segment of a user-role entry. -/
theorem claim_C3 :
    (∀ (tpl : List (String × String)) (role : String) (nup : Nat) (oup : Bool) (f : String),
        alookup tpl "first" = some f → role = "user" → nup = 0 →
        chooseTemplate tpl role nup oup = .ok (f, oup)) ∧
    (∀ (tpl : List (String × String)) (role : String) (nup : Nat) (oup : Bool),
        ¬((alookup tpl "first").isSome = true ∧ role = "user" ∧ nup = 0) →
        chooseTemplate tpl role nup oup =
          match alookup tpl role with
          | none => .error .attributeTemplateName
          | some rt => if oup then .ok (truncToMessage rt, false) else .ok (rt, oup)) ∧
    (∀ (τ : Type) (M : Model τ) (tpl : List (String × String)) (st : AssembleState τ)
        (e : Entry τ) (item : String × Option Value) (st' : AssembleState τ) (e' : Entry τ),
        processItem M tpl st e item = .ok (st', e') →
        st'.num_user_prompts = st.num_user_prompts + nupBump e.role item) := by
  refine ⟨?_, ?_, ?_⟩
  · intro tpl role nup oup f hf hrole hnup
    unfold chooseTemplate
    rw [if_pos ⟨by rw [hf]; rfl, hrole, hnup⟩, hf]
    rfl
  · intro tpl role nup oup hc
    unfold chooseTemplate
    rw [if_neg hc]
  · intro τ M tpl st e item st' e' h
    exact (processItem_ok_spec h).2.2.2.1

/-- C3 counterexample: under a template defining `first` as F-prefixed and
`user` as U-prefixed, a history whose first user entry carries only an image
segment embeds that image with the `first` template (output begins with the F
prefix, not the U prefix), contradicting the claim that the `first` override
applies exactly to the first text segment and never to image segments. -/
theorem claim_C3_cx :
    (ChatHistory.embed_chat Mstr true chatC3cx).2 = .ok (["F", "<img>", "\n"], 0) := by decide

theorem claim_C3_witness :
    chooseTemplate llama2Template "user" 0 true = .ok ("${MESSAGE} [/INST]", true) :=
  claim_C3.1 llama2Template "user" 0 true "${MESSAGE} [/INST]" (by decide) rfl rfl

/-- C5 (code_bug): an entry whose role has no template makes the assembly pass
fail, but not with the role-identifying error the code intends: the raise on
chat.py line 276 interpolates `self.template_name`, which is never assigned
anywhere in the class, so evaluating the f-string raises `AttributeError`
before the `RuntimeError` can be constructed; the pass aborts with that
`AttributeError` (entries untouched) and it propagates to the caller. -/
theorem claim_C5 :
    ChatHistory.embed_chat Mstr true chatC5cx = (chatC5cx, .error .attributeTemplateName) := by
  decide

/-- C7 (code_bug): content-type resolution returns `image` for a string ending
in a known image extension and `text` for any other string, but for EVERY
non-string input - including a non-empty list of strings - it raises
`NameError`: the `isinstance(input, PIL.Image.Image)` check on chat.py line
324 runs before the list branch and `PIL` is never imported in chat.py, so the
list-of-strings branch (intended to return `text`) and the final explicit
`ValueError` are unreachable. -/
theorem claim_C7 :
    (∀ s : String,
        ChatHistory.embedding_type (.str s) =
          .ok (if ImageExtensions.any (fun ext => ext.toList.isSuffixOf s.toList)
               then "image" else "text")) ∧
    (∀ l : List String, ChatHistory.embedding_type (.strList l) = .error .namePIL) ∧
    (∀ n : Nat, ChatHistory.embedding_type (.pil n) = .error .namePIL) ∧
    (∀ n : Nat, ChatHistory.embedding_type (.other n) = .error .namePIL) := by
  refine ⟨?_, fun _ => rfl, fun _ => rfl, fun _ => rfl⟩
  intro s
  simp only [ChatHistory.embedding_type]
  split <;> rfl

/-- C6 (confirmed): the image embedding is the concatenation, along the
sequence axis, of the text embedding of the template part strictly before the
placeholder, the visual embedding of the image, and the text embedding of a
single trailing newline; with no template the first part is omitted.  (The
nonemptiness hypothesis reflects that a supplied template is truthy; by the
data-model invariant every role template contains the placeholder, so it is
never the empty string.) -/
theorem claim_C6 {τ : Type} (M : Model τ) (img : Value) :
    (∀ t : String, t ≠ "" →
        ChatHistory.embed_image M img (some t) =
          M.embed_text (textBeforeMark t) ++ M.embed_image img ++ M.embed_text "\n") ∧
    ChatHistory.embed_image M img none = M.embed_image img ++ M.embed_text "\n" := by
  constructor
  · intro t ht
    simp [ChatHistory.embed_image, ChatHistory.embed_text, ht, List.append_assoc]
  · simp [ChatHistory.embed_image, ChatHistory.embed_text]

theorem claim_C6_witness :
    ("USER: ${MESSAGE}\n" : String) ≠ "" ∧
    ChatHistory.embed_image Mstr (Value.handle 0) (some "USER: ${MESSAGE}\n") =
      Mstr.embed_text (textBeforeMark "USER: ${MESSAGE}\n") ++
        Mstr.embed_image (Value.handle 0) ++ Mstr.embed_text "\n" :=
  ⟨by decide, (claim_C6 Mstr (Value.handle 0)).1 "USER: ${MESSAGE}\n" (by decide)⟩

theorem cacheStep_false_spec {τ : Type} {M : Model τ} {st : AssembleState τ} {e : Entry τ}
    {key : String} {v : Value} {rt : String} {oup : Bool}
    {st2 : AssembleState τ} {e2 : Entry τ}
    (huc : st.use_cache = false)
    (hcs : cacheStep M st e key v rt oup = .ok (st2, e2)) :
    ∃ emb, st2.embeddings = st.embeddings ++ [emb] ∧ alookup e2.cache key = some emb := by
  rcases hc : alookup e.cache key with _ | emb
  · rcases he : ChatHistory.embed M v key (some rt) with e0 | emb
    · rw [cacheStep_embed_err hc he] at hcs
      exact absurd hcs (by simp)
    · rw [cacheStep_false_miss huc hc he] at hcs
      simp only [Except.ok.injEq, Prod.mk.injEq] at hcs
      obtain ⟨h1, h2⟩ := hcs
      subst h1; subst h2
      exact ⟨emb, rfl, alookup_append_write hc emb⟩
  · rw [cacheStep_false_hit huc hc] at hcs
    simp only [Except.ok.injEq, Prod.mk.injEq] at hcs
    obtain ⟨h1, h2⟩ := hcs
    subst h1; subst h2
    exact ⟨emb, rfl, hc⟩

theorem processItems_nocache {τ : Type} {M : Model τ} {tpl : List (String × String)}
    (items : List (String × Option Value)) :
    ∀ (st : AssembleState τ) (e : Entry τ) (st' : AssembleState τ) (e' : Entry τ),
      st.use_cache = false →
      processItems M tpl st e items = ((st', e'), none) →
      st'.embeddings = st.embeddings ++
        (items.filter embeddableItem).map (fun kv => (alookup e'.cache kv.1).getD []) := by
  induction items with
  | nil =>
    intro st e st' e' huc h
    simp only [processItems, Prod.mk.injEq] at h
    obtain ⟨⟨h1, h2⟩, _⟩ := h
    subst h1; subst h2
    simp
  | cons item rest ih =>
    intro st e st' e' huc h
    simp only [processItems] at h
    rcases hpi : processItem M tpl st e item with e0 | ⟨st2, e2⟩ <;> rw [hpi] at h
    · simp at h
    · cases hemb : embeddableItem item with
      | false =>
        have hskip := (processItem_skip M tpl st e item hemb).symm.trans hpi
        simp only [Except.ok.injEq, Prod.mk.injEq] at hskip
        obtain ⟨h1, h2⟩ := hskip
        subst h1; subst h2
        rw [List.filter_cons_of_neg (by simp [hemb])]
        exact ih st e st' e' huc h
      | true =>
        obtain ⟨key, ov⟩ := item
        have hemb9 := hemb
        simp only [embeddableItem, Bool.and_eq_true] at hemb9
        obtain ⟨hr, hov⟩ := hemb9
        obtain ⟨v, hv⟩ := Option.isSome_iff_exists.mp hov
        subst hv
        obtain ⟨rt, oup, st2cs, hct, hcs, hstdef⟩ := processItem_ok_inv hr hpi
        obtain ⟨emb, hembs, hsome2⟩ := cacheStep_false_spec huc hcs
        have huc2 : st2.use_cache = false := by
          rw [hstdef]
          show st2cs.use_cache = false
          exact ((cacheStep_ok_spec hcs).2.2.2.2.2.2 huc).1
        have hrest := ih st2 e2 st' e' huc2 h
        obtain ⟨_, _, ⟨d, hd⟩, _, _⟩ := processItems_spec rest st2 e2 st' e' none h
        have hkeyfinal : alookup e'.cache key = some emb := by
          rw [hd]
          exact alookup_append_left hsome2
        rw [List.filter_cons_of_pos (by simp [hemb]), List.map_cons, hrest, hkeyfinal]
        have hemb2 : st2.embeddings = st.embeddings ++ [emb] := by
          rw [hstdef]
          exact hembs
        rw [hemb2]
        simp

theorem flatten_map_flatten {α β : Type _} (g : β → List (List α)) (l : List β) :
    ((l.map g).flatten).flatten = (l.map (fun b => (g b).flatten)).flatten := by
  induction l with
  | nil => rfl
  | cons b t ih => simp [List.flatten_append, ih]

theorem processEntries_nocache {τ : Type} {M : Model τ} {tpl : List (String × String)}
    (es : List (Entry τ)) :
    ∀ (st st' : AssembleState τ) (es' : List (Entry τ)),
      st.use_cache = false →
      processEntries M tpl st es = ((st', es'), none) →
      st'.embeddings = st.embeddings ++ (es'.map emittedOfEntry).flatten := by
  induction es with
  | nil =>
    intro st st' es' huc h
    simp only [processEntries, Prod.mk.injEq] at h
    obtain ⟨⟨h1, h2⟩, _⟩ := h
    subst h1; subst h2
    simp
  | cons e rest ih =>
    intro st st' es' huc h
    rcases hpi : processItems M tpl st e e.content with ⟨⟨st2, e2⟩, ierr⟩
    cases ierr with
    | some e0 =>
      rw [processEntries_cons_err hpi] at h
      simp at h
    | none =>
      rcases hpe : processEntries M tpl st2 rest with ⟨⟨st3, rest2⟩, err2⟩
      obtain ⟨_, hcont, _, hucp, _⟩ := processItems_spec e.content st e st2 e2 none hpi
      have huc2 : st2.use_cache = false := (hucp huc).1
      have hhead := processItems_nocache e.content st e st2 e2 huc hpi
      rw [processEntries_cons_none hpi hpe] at h
      simp only [Prod.mk.injEq] at h
      obtain ⟨⟨h1, h2⟩, h3⟩ := h
      subst h1; subst h2; subst h3
      have htail := ih st2 st3 rest2 huc2 hpe
      rw [htail, hhead]
      have : (e.content.filter embeddableItem).map (fun kv => (alookup e2.cache kv.1).getD []) =
          emittedOfEntry e2 := by
        unfold emittedOfEntry
        rw [hcont]
      rw [this]
      simp [List.flatten_cons, List.append_assoc]

/-- C4 (corrected): whenever a pass with `use_cache=false` returns (rather
than failing), it emits the embedding of every embeddable segment of every
entry in order - cache hits are emitted too, freshly computed embeddings are
stored on entries that lacked them - and the returned cache position is 0.
(The claim cannot hold of literally every history: a history with no
embeddable segment makes the final empty concatenation raise, see the
counterexample.) -/
theorem claim_C4 {τ : Type} {M : Model τ} {c c' : ChatHistory τ} {t : List τ} {p : Nat}
    (h : ChatHistory.embed_chat M false c = (c', .ok (t, p))) :
    assemblesFully c c' t p := by
  rcases hpe : processEntries M c.template
      { embeddings := [], position := 0, num_user_prompts := 0,
        open_user_prompt := false, use_cache := false } c.entries with ⟨⟨st1, es1⟩, err⟩
  cases err with
  | some e0 =>
    rw [embed_chat_def_err hpe] at h
    simp at h
  | none =>
    rw [embed_chat_def_none hpe] at h
    by_cases hemp : st1.embeddings.isEmpty
    · rw [if_pos hemp] at h
      simp at h
    · rw [if_neg hemp] at h
      simp only [Prod.mk.injEq, Except.ok.injEq] at h
      obtain ⟨hc2, ht, hp⟩ := h
      obtain ⟨hforall, hucp, hcached⟩ :=
        processEntries_spec c.entries _ _ _ _ hpe
      have hpos : st1.position = 0 := (hucp rfl).2
      have hembs := processEntries_nocache c.entries _ _ _ rfl hpe
      refine ⟨?_, ?_, ?_, ?_⟩
      · rw [← hp, hpos]
      · rw [← hc2]
        exact hforall
      · rw [← hc2]
        exact hcached rfl
      · rw [← ht, hembs, ← hc2]
        show ((es1.map emittedOfEntry).flatten).flatten = _
        exact flatten_map_flatten emittedOfEntry es1
  
/-- C4 counterexample: on the empty history (as produced by `reset` without a
system prompt) the `use_cache=false` pass emits nothing, so the final
`np.concatenate([])` raises `ValueError` instead of returning position 0. -/
theorem claim_C4_cx :
    ChatHistory.embed_chat Mstr false chatC4cx = (chatC4cx, .error .emptyConcat) := by decide

theorem claim_C4_witness :
    ChatHistory.embed_chat Mstr false chatC4w = (chatC4wDone, .ok (["S", "USER: q\n"], 0)) ∧
    assemblesFully chatC4w chatC4wDone ["S", "USER: q\n"] 0 :=
  ⟨by decide, @claim_C4 String Mstr chatC4w chatC4wDone ["S", "USER: q\n"] 0 (by decide)⟩

/-- C8 (confirmed): setting the system prompt stores the new string in the
template dict and performs a full reset: the entry sequence is replaced by a
single fresh system entry carrying the new prompt (all previously cached
embeddings are discarded with the old entries), and the next cached assembly
returns exactly the embedding of the new prompt rendered through the `system`
role template, at cache position 0. -/
theorem claim_C8 {τ : Type} (M : Model τ) (c : ChatHistory τ) (x stpl : String)
    (hs : alookup c.template "system" = some stpl) :
    alookup (ChatHistory.set_system_prompt c x).template "system_prompt" = some x ∧
    (ChatHistory.set_system_prompt c x).entries =
      [{ role := "system", content := [("text", some (Value.str x))], cache := [] }] ∧
    ChatHistory.embed_chat M true (ChatHistory.set_system_prompt c x) =
      ({ template := setKey c.template "system_prompt" x,
         entries := [{ role := "system", content := [("text", some (Value.str x))],
                       cache := [("text", ChatHistory.embed_text M x (some stpl))] }] },
       .ok (ChatHistory.embed_text M x (some stpl), 0)) := by
  have hsp : alookup (setKey c.template "system_prompt" x) "system_prompt" = some x :=
    alookup_setKey_self c.template "system_prompt" x
  have hsys : alookup (setKey c.template "system_prompt" x) "system" = some stpl := by
    rw [alookup_setKey_other c.template "system_prompt" x "system" (by decide)]
    exact hs
  have hc2 : ChatHistory.set_system_prompt c x =
      { template := setKey c.template "system_prompt" x,
        entries := [{ role := "system", content := [("text", some (Value.str x))],
                      cache := [] }] } := by
    unfold ChatHistory.set_system_prompt ChatHistory.reset
    simp [hsp]
  refine ⟨by rw [hc2]; exact hsp, by rw [hc2], ?_⟩
  rw [hc2]
  have hembed : ChatHistory.embed M (Value.str x) "text" (some stpl) =
      .ok (ChatHistory.embed_text M x (some stpl)) := rfl
  have hct : chooseTemplate (setKey c.template "system_prompt" x) "system" 0 false =
      .ok (stpl, false) := by
    unfold chooseTemplate
    rw [if_neg (by rintro ⟨_, habs, _⟩; exact absurd habs (by decide))]
    simp only [hsys]
    rfl
  have hcs := @cacheStep_true_miss_notbot τ M
    { embeddings := [], position := 0, num_user_prompts := 0,
      open_user_prompt := false, use_cache := true }
    { role := "system", content := [("text", some (Value.str x))], cache := [] }
    "text" (Value.str x) stpl false (ChatHistory.embed_text M x (some stpl))
    rfl rfl hembed (by show "system" ≠ "bot"; decide)
  have hone := processItem_reg_ok (by decide) hct hcs
  simp only [ChatHistory.embed_chat, processEntries, processItems, hone]
  simp

theorem claim_C8_witness :
    alookup chatC8w.template "system" =
      some "<s>[INST] <<SYS>>\n${MESSAGE}\n<</SYS>>\n\n" ∧
    (alookup (ChatHistory.set_system_prompt chatC8w "Be brief.").template "system_prompt" =
        some "Be brief." ∧
      (ChatHistory.set_system_prompt chatC8w "Be brief.").entries =
        [{ role := "system", content := [("text", some (Value.str "Be brief."))], cache := [] }] ∧
      ChatHistory.embed_chat Mstr true (ChatHistory.set_system_prompt chatC8w "Be brief.") =
        ({ template := setKey chatC8w.template "system_prompt" "Be brief.",
           entries := [{ role := "system",
                         content := [("text", some (Value.str "Be brief."))],
                         cache := [("text", ChatHistory.embed_text Mstr "Be brief."
                           (some "<s>[INST] <<SYS>>\n${MESSAGE}\n<</SYS>>\n\n"))] }] },
         .ok (ChatHistory.embed_text Mstr "Be brief."
           (some "<s>[INST] <<SYS>>\n${MESSAGE}\n<</SYS>>\n\n"), 0))) :=
  ⟨by decide,
   claim_C8 Mstr chatC8w "Be brief." "<s>[INST] <<SYS>>\n${MESSAGE}\n<</SYS>>\n\n" (by decide)⟩

/-! ### Skipped keys do not affect the pass -/

theorem cacheStep_content_irrel {τ : Type} (M : Model τ) (st : AssembleState τ)
    (r : String) (X Y : List (String × Option Value)) (cc : List (String × List τ))
    (key : String) (v : Value) (rt : String) (oup : Bool) :
    cacheStep M st ⟨r, X, cc⟩ key v rt oup =
      (cacheStep M st ⟨r, Y, cc⟩ key v rt oup).map
        (fun pr => (pr.1, { pr.2 with content := X })) := by
  cases huc : st.use_cache with
  | false =>
    rcases hc : alookup cc key with _ | emb
    · rcases he : ChatHistory.embed M v key (some rt) with e0 | emb2
      · rw [cacheStep_embed_err hc he, cacheStep_embed_err hc he]
        rfl
      · rw [cacheStep_false_miss huc hc he, cacheStep_false_miss huc hc he]
        rfl
    · rw [cacheStep_false_hit huc hc, cacheStep_false_hit huc hc]
      rfl
  | true =>
    rcases hc : alookup cc key with _ | emb
    · rcases he : ChatHistory.embed M v key (some rt) with e0 | emb2
      · rw [cacheStep_embed_err hc he, cacheStep_embed_err hc he]
        rfl
      · by_cases hb : r = "bot"
        · rw [cacheStep_true_miss_bot huc hc he hb, cacheStep_true_miss_bot huc hc he hb]
          rfl
        · rw [cacheStep_true_miss_notbot huc hc he hb, cacheStep_true_miss_notbot huc hc he hb]
          rfl
    · rw [cacheStep_true_hit huc hc, cacheStep_true_hit huc hc]
      rfl

theorem processItem_content_irrel {τ : Type} (M : Model τ) (tpl : List (String × String))
    (st : AssembleState τ) (r : String) (X Y : List (String × Option Value))
    (cc : List (String × List τ)) (item : String × Option Value) :
    processItem M tpl st ⟨r, X, cc⟩ item =
      (processItem M tpl st ⟨r, Y, cc⟩ item).map
        (fun pr => (pr.1, { pr.2 with content := X })) := by
  obtain ⟨key, ov⟩ := item
  cases ov with
  | none => rfl
  | some v =>
    cases hr : embedding_functions.contains key with
    | false =>
      rw [processItem_skip_unreg M tpl st _ key v hr, processItem_skip_unreg M tpl st _ key v hr]
      rfl
    | true =>
      rcases hct : chooseTemplate tpl r st.num_user_prompts st.open_user_prompt with e0 | ⟨rt, oup⟩
      · rw [processItem_ct_err hr hct, processItem_ct_err hr hct]
        rfl
      · rcases hcs : cacheStep M st ⟨r, Y, cc⟩ key v rt oup with e0 | ⟨st2, e2⟩
        · have hcsX : cacheStep M st (⟨r, X, cc⟩ : Entry τ) key v rt oup = .error e0 := by
            rw [cacheStep_content_irrel M st r X Y cc key v rt oup, hcs]
            rfl
          rw [processItem_reg_err hr hct hcsX, processItem_reg_err hr hct hcs]
          rfl
        · have hcsX : cacheStep M st (⟨r, X, cc⟩ : Entry τ) key v rt oup =
              .ok (st2, { e2 with content := X }) := by
            rw [cacheStep_content_irrel M st r X Y cc key v rt oup, hcs]
            rfl
          rw [processItem_reg_ok hr hct hcsX, processItem_reg_ok hr hct hcs]
          rfl

theorem processItems_filter {τ : Type} {M : Model τ} {tpl : List (String × String)}
    (items : List (String × Option Value)) :
    ∀ (st : AssembleState τ) (e : Entry τ),
      processItems M tpl st (filterEntry e) (items.filter embeddableItem) =
        (fun pr => ((pr.1.1, filterEntry pr.1.2), pr.2)) (processItems M tpl st e items) := by
  induction items with
  | nil => intro st e; rfl
  | cons item rest ih =>
    intro st e
    cases hemb : embeddableItem item with
    | false =>
      rw [List.filter_cons_of_neg (by simp [hemb])]
      have hrhs : processItems M tpl st e (item :: rest) = processItems M tpl st e rest := by
        simp only [processItems, processItem_skip M tpl st e item hemb]
      rw [hrhs]
      exact ih st e
    | true =>
      rw [List.filter_cons_of_pos (by simp [hemb])]
      have hfe : (filterEntry e) = ⟨e.role, e.content.filter embeddableItem, e.cache⟩ := rfl
      have hirr := processItem_content_irrel M tpl st e.role
        (e.content.filter embeddableItem) e.content e.cache item
      rcases hpi : processItem M tpl st (⟨e.role, e.content, e.cache⟩ : Entry τ) item
        with e0 | ⟨st2, e2⟩
      · have hpiX : processItem M tpl st (filterEntry e) item = .error e0 := by
          rw [hfe, hirr, hpi]
          rfl
        have hpi2 : processItem M tpl st e item = .error e0 := hpi
        simp only [processItems, hpiX, hpi2]
      · have hpiX : processItem M tpl st (filterEntry e) item =
            .ok (st2, { e2 with content := e.content.filter embeddableItem }) := by
          rw [hfe, hirr, hpi]
          rfl
        have hpi2 : processItem M tpl st e item = .ok (st2, e2) := hpi
        simp only [processItems, hpiX, hpi2]
        obtain ⟨_, hcont, _⟩ := processItem_ok_spec hpi2
        have he2 : ({ e2 with content := e.content.filter embeddableItem } : Entry τ) =
            filterEntry e2 := by
          unfold filterEntry
          rw [hcont]
        rw [he2]
        exact ih st2 e2

theorem processEntries_filter {τ : Type} {M : Model τ} {tpl : List (String × String)}
    (es : List (Entry τ)) :
    ∀ st : AssembleState τ,
      processEntries M tpl st (es.map filterEntry) =
        (fun pr => ((pr.1.1, pr.1.2.map filterEntry), pr.2)) (processEntries M tpl st es) := by
  induction es with
  | nil => intro st; rfl
  | cons e rest ih =>
    intro st
    have hfc : (filterEntry e).content = e.content.filter embeddableItem := rfl
    rcases hpi : processItems M tpl st e e.content with ⟨⟨st2, e2⟩, ierr⟩
    have hpiX : processItems M tpl st (filterEntry e) ((filterEntry e).content) =
        ((st2, filterEntry e2), ierr) := by
      rw [hfc, processItems_filter e.content st e, hpi]
    cases ierr with
    | some e0 =>
      rw [List.map_cons, processEntries_cons_err hpiX, processEntries_cons_err hpi]
      rfl
    | none =>
      rcases hpe : processEntries M tpl st2 rest with ⟨⟨st3, rest2⟩, err2⟩
      have hpeX : processEntries M tpl st2 (rest.map filterEntry) =
          ((st3, rest2.map filterEntry), err2) := by
        rw [ih st2, hpe]
      rw [List.map_cons, processEntries_cons_none hpiX hpeX, processEntries_cons_none hpi hpe]
      rfl

/-- C10 (confirmed): a content key holding `None`, or whose key has no
registered embedding function (this includes the `role` key and arbitrary
unregistered kwargs), is silently skipped by the assembly pass: processing it
is a no-op that raises nothing (first two conjuncts), and deleting every such
key from every entry changes neither the result of `embed_chat` nor the
processed entries (third conjunct), so the rest of each entry is processed
exactly as before. -/
theorem claim_C10 {τ : Type} :
    (∀ (M : Model τ) (tpl : List (String × String)) (st : AssembleState τ) (e : Entry τ)
        (key : String), processItem M tpl st e (key, none) = .ok (st, e)) ∧
    (∀ (M : Model τ) (tpl : List (String × String)) (st : AssembleState τ) (e : Entry τ)
        (key : String) (v : Value), embedding_functions.contains key = false →
        processItem M tpl st e (key, some v) = .ok (st, e)) ∧
    (∀ (M : Model τ) (b : Bool) (c : ChatHistory τ),
        (ChatHistory.embed_chat M b { c with entries := c.entries.map filterEntry }).2 =
          (ChatHistory.embed_chat M b c).2 ∧
        (ChatHistory.embed_chat M b { c with entries := c.entries.map filterEntry }).1.entries =
          (ChatHistory.embed_chat M b c).1.entries.map filterEntry) := by
  refine ⟨fun M tpl st e key => processItem_skip_none M tpl st e key,
    fun M tpl st e key v h => processItem_skip_unreg M tpl st e key v h,
    fun M b c => ?_⟩
  rcases hpe : processEntries M c.template
      { embeddings := [], position := 0, num_user_prompts := 0,
        open_user_prompt := false, use_cache := b } c.entries with ⟨⟨st1, es1⟩, err⟩
  have hpeX : processEntries M c.template
      { embeddings := [], position := 0, num_user_prompts := 0,
        open_user_prompt := false, use_cache := b } (c.entries.map filterEntry) =
      ((st1, es1.map filterEntry), err) := by
    rw [processEntries_filter c.entries, hpe]
  cases err with
  | some e0 =>
    rw [@embed_chat_def_err τ M b { c with entries := c.entries.map filterEntry } st1
          (es1.map filterEntry) e0 hpeX,
        @embed_chat_def_err τ M b c st1 es1 e0 hpe]
    exact ⟨rfl, rfl⟩
  | none =>
    rw [@embed_chat_def_none τ M b { c with entries := c.entries.map filterEntry } st1
          (es1.map filterEntry) hpeX,
        @embed_chat_def_none τ M b c st1 es1 hpe]
    by_cases hemp : st1.embeddings.isEmpty
    · rw [if_pos hemp, if_pos hemp]
      exact ⟨rfl, rfl⟩
    · rw [if_neg hemp, if_neg hemp]
      exact ⟨rfl, rfl⟩

theorem claim_C10_witness :
    processItem Mstr vicunaLikeTemplate stC1w entC1w ("role", none) = .ok (stC1w, entC1w) ∧
    processItem Mstr vicunaLikeTemplate stC1w entC1w ("mood", some (Value.str "m")) =
      .ok (stC1w, entC1w) ∧
    (ChatHistory.embed_chat Mstr true
        { chatC4w with entries := chatC4w.entries.map filterEntry }).2 =
      (ChatHistory.embed_chat Mstr true chatC4w).2 :=
  ⟨claim_C10.1 Mstr vicunaLikeTemplate stC1w entC1w "role",
   claim_C10.2.1 Mstr vicunaLikeTemplate stC1w entC1w "mood" (Value.str "m") (by decide),
   (claim_C10.2.2 Mstr true chatC4w).1⟩
